import Mathlib

/-!
Verification of the log-viewer core (src/app/page.js).

This file gives a shallow embedding of the two core algorithms of the
repository — the JSON syntax tokenizer of the `SyntaxHighlighter` component
and the log-extraction pipeline of the `Home` component's effect — and
proves the specified properties about them.

Strings are modelled at the level of their character lists (`List Char`);
JavaScript runtime builtins used by the source (`JSON.parse`,
`JSON.stringify`, `Date` parsing, `Array.prototype.sort`, dynamic property
access) are embedded as executable Lean functions, faithful to the
ECMAScript behaviour on the inputs the program exercises.  Recursions that
are not structurally decreasing carry an explicit fuel argument so that
every definition computes by kernel reduction; callers always supply fuel
that dominates the input length.
-/

namespace LogViewer

/-- The left curly bracket character (written via its code so that string
literals in this file can stay bracket-free). -/
def lbrace : Char := Char.ofNat 123

/-- The right curly bracket character. -/
def rbrace : Char := Char.ofNat 125

/-- `[a-zA-Z0-9]`, the character class used by the `\u` escape arm of the
tokenizer's regex. -/
def isAlnumAscii (c : Char) : Bool := c.isAlpha || c.isDigit

/-- A word character in the sense of the regex metacharacter `\b`
(ASCII letters, digits and underscore). -/
def isWordChar (c : Char) : Bool := c.isAlpha || c.isDigit || c == '_'

/-- JavaScript whitespace (the `\s` class and `String.prototype.trim`):
space, tab, line and paragraph separators, NBSP and BOM. -/
def isJsSpace (c : Char) : Bool :=
  let n := c.toNat
  n == 0x20 || n == 0x09 || n == 0x0a || n == 0x0d ||
  n == 0x0b || n == 0x0c || n == 0xa0 || n == 0x1680 ||
  (0x2000 <= n && n <= 0x200a) ||
  n == 0x2028 || n == 0x2029 || n == 0x202f || n == 0x205f ||
  n == 0x3000 || n == 0xfeff

/-! ## The tokenizer

The source (page.js lines 7–39) drives a scan with the global regex

  `("(\\u[a-zA-Z0-9]{4}|\\[^u]|[^\\"])*"(\s*:)?|\b(true|false|null)\b|-?\d+(?:\.\d*)?(?:[eE][+\-]?\d+)?)`

emitting the text between matches as `text` tokens and classifying each
match as `key` (capture group 3, the optional `\s*:` suffix, participated),
`string` (starts with a double quote), `boolean` (contains one of the words
`true`/`false`/`null`) or `number`.

The regex alternatives are deterministic: inside the string body the three
escape arms are distinguished by their first two characters, a star
iteration can never consume an unescaped quote, and a backtracked stop
position therefore never sees the closing quote.  The matchers below are
the resulting (backtracking-free) character-level scanners.
-/

/-- Matches `(\\u[a-zA-Z0-9]{4}|\\[^u]|[^\\"])*"` — the body of the quoted
string alternative after its opening quote, returning the number of
characters consumed, including the closing quote. -/
def matchStringBody : List Char → Option Nat
  | [] => none
  | '"' :: _ => some 1
  | '\\' :: 'u' :: a :: b :: c :: d :: rest =>
    if isAlnumAscii a && isAlnumAscii b && isAlnumAscii c && isAlnumAscii d then
      (matchStringBody rest).map (· + 6)
    else none
  | '\\' :: c :: rest =>
    if c == 'u' then none else (matchStringBody rest).map (· + 2)
  | '\\' :: [] => none
  | _ :: rest => (matchStringBody rest).map (· + 1)

/-- Matches `\s*:` (greedy whitespace, then a colon), returning the number
of characters consumed. -/
def matchWsColon : List Char → Option Nat
  | [] => none
  | c :: rest =>
    if isJsSpace c then (matchWsColon rest).map (· + 1)
    else if c == ':' then some 1
    else none

/-- The whole first regex alternative `"(…)*"(\s*:)?`.  Returns the match
length and whether the optional colon group (capture group 3)
participated. -/
def matchStringAlt (cs : List Char) : Option (Nat × Bool) :=
  match cs with
  | '"' :: rest =>
    match matchStringBody rest with
    | some n =>
      match matchWsColon (cs.drop (n + 1)) with
      | some m => some (n + 1 + m, true)
      | none => some (n + 1, false)
    | none => none
  | _ => none

/-- Word-boundary check on the right of a keyword: the next character, if
any, must not be a word character. -/
def boundaryRight : List Char → Bool
  | [] => true
  | c :: _ => !isWordChar c

/-- Word-boundary check on the left of a keyword: the preceding character,
if any, must not be a word character. -/
def boundaryLeftOk : Option Char → Bool
  | none => true
  | some c => !isWordChar c

/-- The second regex alternative `\b(true|false|null)\b`.  `prev` is the
character preceding the current scan position in the full input (used by
the leading `\b`). -/
def matchKeywordAlt (prev : Option Char) (cs : List Char) : Option Nat :=
  if boundaryLeftOk prev then
    if ('t' :: 'r' :: 'u' :: 'e' :: []).isPrefixOf cs && boundaryRight (cs.drop 4) then
      some 4
    else if ('f' :: 'a' :: 'l' :: 's' :: 'e' :: []).isPrefixOf cs && boundaryRight (cs.drop 5) then
      some 5
    else if ('n' :: 'u' :: 'l' :: 'l' :: []).isPrefixOf cs && boundaryRight (cs.drop 4) then
      some 4
    else none
  else none

/-- Length of the leading run of ASCII digits. -/
def digitRun (cs : List Char) : Nat := (cs.takeWhile Char.isDigit).length

/-- Length matched by the optional exponent group `(?:[eE][+\-]?\d+)?`
(0 when the group does not participate). -/
def expLen (after2 : List Char) : Nat :=
  match after2 with
  | e :: r =>
    if e == 'e' || e == 'E' then
      match r with
      | '+' :: r2 => if digitRun r2 == 0 then 0 else 2 + digitRun r2
      | '-' :: r2 => if digitRun r2 == 0 then 0 else 2 + digitRun r2
      | _ => if digitRun r == 0 then 0 else 1 + digitRun r
    else 0
  | [] => 0

/-- Length matched by `(?:\.\d*)?(?:[eE][+\-]?\d+)?` after the integer
digits. -/
def fracExpLen (after : List Char) : Nat :=
  let frac := match after with
    | '.' :: r => 1 + digitRun r
    | _ => 0
  frac + expLen (after.drop frac)

/-- `\d+(?:\.\d*)?(?:[eE][+\-]?\d+)?`: an unsigned number at the current
position. -/
def matchUnsignedNumber (cs1 : List Char) : Option Nat :=
  if digitRun cs1 == 0 then none
  else some (digitRun cs1 + fracExpLen (cs1.drop (digitRun cs1)))

/-- The third regex alternative `-?\d+(?:\.\d*)?(?:[eE][+\-]?\d+)?`. -/
def matchNumberAlt (cs : List Char) : Option Nat :=
  match cs with
  | '-' :: rest =>
    match matchUnsignedNumber rest with
    | some m => some (m + 1)
    | none => none
  | _ => matchUnsignedNumber cs

/-- Token kinds emitted by the highlighter (the `type` field of `parts`). -/
inductive TokenKind where
  | key
  | string
  | boolean
  | number
  | text
deriving DecidableEq

/-- One emitted token: a kind and the covered span of the input. -/
structure Token where
  kind : TokenKind
  content : List Char
deriving DecidableEq

/-- Whether `pat` occurs as a contiguous subsequence of `cs`. -/
def containsSeq (pat : List Char) : List Char → Bool
  | [] => pat.isEmpty
  | c :: rest => pat.isPrefixOf (c :: rest) || containsSeq pat rest

/-- The classification of a matched lexeme (page.js lines 20–28):
group 3 participated → `key`; starts with a quote → `string`;
`/true|false|null/.test(token)` → `boolean`; otherwise `number`. -/
def classifyToken (tok : List Char) (colonGroup : Bool) : TokenKind :=
  if colonGroup then .key
  else if (match tok with | '"' :: _ => true | _ => false) then .string
  else if containsSeq ('t' :: 'r' :: 'u' :: 'e' :: []) tok
       || containsSeq ('f' :: 'a' :: 'l' :: 's' :: 'e' :: []) tok
       || containsSeq ('n' :: 'u' :: 'l' :: 'l' :: []) tok then .boolean
  else .number

/-- Attempts the three regex alternatives, in the regex's priority order,
at the current position.  Returns the match length and token kind. -/
def tryMatchAt (prev : Option Char) (cs : List Char) : Option (Nat × TokenKind) :=
  match matchStringAlt cs with
  | some (n, colon) => some (n, classifyToken (cs.take n) colon)
  | none =>
    match matchKeywordAlt prev cs with
    | some n => some (n, classifyToken (cs.take n) false)
    | none =>
      match matchNumberAlt cs with
      | some n => some (n, classifyToken (cs.take n) false)
      | none => none

/-- The `regex.exec` loop of the highlighter (page.js lines 13–36): find
the leftmost match at or after the cursor, push the text run before it,
push the classified match, continue after it; a final text run flushes at
the end.  `prev` is the character before the cursor (for `\b`), `pending`
the reversed text run accumulated since the last match.  The fuel argument
only serves termination; `tokenize` supplies more than enough. -/
def scanAux : Nat → Option Char → List Char → List Char → List Token
  | 0, _, pending, cs =>
    if (pending.reverse ++ cs).isEmpty then []
    else [⟨.text, pending.reverse ++ cs⟩]
  | _ + 1, _, pending, [] =>
    if pending.isEmpty then [] else [⟨.text, pending.reverse⟩]
  | fuel + 1, prev, pending, c :: rest =>
    match tryMatchAt prev (c :: rest) with
    | some (n, k) =>
      let tok := (c :: rest).take n
      let out := scanAux fuel tok.getLast? [] ((c :: rest).drop n)
      if pending.isEmpty then ⟨k, tok⟩ :: out
      else ⟨.text, pending.reverse⟩ :: ⟨k, tok⟩ :: out
    | none => scanAux fuel (some c) (c :: pending) rest

/-- `tokenize(text)`: the token stream computed by `SyntaxHighlighter`. -/
def tokenize (s : String) : List Token :=
  scanAux (s.toList.length + 1) none [] s.toList

/-- Concatenation of the token contents, in order. -/
def tokensText (ts : List Token) : List Char :=
  ts.foldr (fun t acc => t.content ++ acc) []

@[simp] theorem tokensText_nil : tokensText [] = [] := rfl

@[simp] theorem tokensText_cons (t : Token) (ts : List Token) :
    tokensText (t :: ts) = t.content ++ tokensText ts := rfl

/-- The scan loop preserves the input text: whatever the fuel, the emitted
token contents concatenate to the pending text run followed by the
unconsumed input. -/
theorem tokensText_scanAux (fuel : Nat) : ∀ (prev : Option Char) (pending cs : List Char),
    tokensText (scanAux fuel prev pending cs) = pending.reverse ++ cs := by
  induction fuel with
  | zero =>
    intro prev pending cs
    simp only [scanAux]
    split
    · next h =>
      rw [List.isEmpty_iff] at h
      simp [h]
    · simp
  | succ fuel ih =>
    intro prev pending cs
    match cs with
    | [] =>
      simp only [scanAux]
      split
      · next h =>
        rw [List.isEmpty_iff] at h
        simp [h]
      · simp
    | c :: rest =>
      cases htm : tryMatchAt prev (c :: rest) with
      | none =>
        simp only [scanAux, htm]
        rw [ih]
        simp
      | some nk =>
        obtain ⟨n, k⟩ := nk
        simp only [scanAux, htm]
        split
        · next h =>
          rw [List.isEmpty_iff] at h
          simp [h, ih, List.take_append_drop]
        · simp [ih, List.take_append_drop]

/-- Claim C1: for every input string, concatenating the content fields of
the tokens returned by `tokenize`, in order, reconstructs the input
exactly — no characters dropped, duplicated, or reordered. -/
theorem tokenize_roundtrip (s : String) : String.mk (tokensText (tokenize s)) = s := by
  unfold tokenize
  rw [tokensText_scanAux]
  cases s
  rfl

/-- Claim C5: on the input text of spec section 8's classification test,
`tokenize` classifies the quoted keys followed by colons as `key`, the
quoted value as `string`, `42` as `number`, `true` as `boolean`, and all
remaining punctuation and whitespace spans as `text`. -/
theorem tokenize_classification_example :
    tokenize "\x7b\"key\": \"value\", \"n\": 42, \"b\": true\x7d" =
      [⟨.text, "\x7b".toList⟩, ⟨.key, "\"key\":".toList⟩, ⟨.text, " ".toList⟩,
       ⟨.string, "\"value\"".toList⟩, ⟨.text, ", ".toList⟩, ⟨.key, "\"n\":".toList⟩,
       ⟨.text, " ".toList⟩, ⟨.number, "42".toList⟩, ⟨.text, ", ".toList⟩,
       ⟨.key, "\"b\":".toList⟩, ⟨.text, " ".toList⟩, ⟨.boolean, "true".toList⟩,
       ⟨.text, "\x7d".toList⟩] := by
  decide

/-- `classifyToken` never yields a `text` token: every classified lexeme is
a key, string, boolean or number. -/
theorem classifyToken_ne_text (tok : List Char) (cg : Bool) :
    classifyToken tok cg ≠ TokenKind.text := by
  unfold classifyToken
  split
  · intro h; cases h
  split
  · intro h; cases h
  split
  · intro h; cases h
  · intro h; cases h

/-- A string-alternative match consumes at least one character. -/
theorem matchStringAlt_pos (cs : List Char) (n : Nat) (b : Bool)
    (h : matchStringAlt cs = some (n, b)) : 1 ≤ n := by
  unfold matchStringAlt at h
  split at h
  · split at h
    · split at h <;>
        (simp only [Option.some.injEq, Prod.mk.injEq] at h;
         obtain ⟨h1, h2⟩ := h; omega)
    · cases h
  · cases h

/-- A keyword-alternative match consumes at least one character. -/
theorem matchKeywordAlt_pos (prev : Option Char) (cs : List Char) (n : Nat)
    (h : matchKeywordAlt prev cs = some n) : 1 ≤ n := by
  unfold matchKeywordAlt at h
  split at h
  · split at h
    · simp only [Option.some.injEq] at h; omega
    · split at h
      · simp only [Option.some.injEq] at h; omega
      · split at h
        · simp only [Option.some.injEq] at h; omega
        · cases h
  · cases h

/-- An unsigned-number match consumes at least one character. -/
theorem matchUnsignedNumber_pos (cs : List Char) (n : Nat)
    (h : matchUnsignedNumber cs = some n) : 1 ≤ n := by
  unfold matchUnsignedNumber at h
  split at h
  · cases h
  · next hd =>
    simp only [Option.some.injEq] at h
    simp only [beq_iff_eq] at hd
    omega

/-- A number-alternative match consumes at least one character. -/
theorem matchNumberAlt_pos (cs : List Char) (n : Nat)
    (h : matchNumberAlt cs = some n) : 1 ≤ n := by
  unfold matchNumberAlt at h
  split at h
  · split at h
    · simp only [Option.some.injEq] at h; omega
    · cases h
  · exact matchUnsignedNumber_pos _ _ h

/-- A successful regex match consumes at least one character and is never
classified as plain text. -/
theorem tryMatchAt_pos (prev : Option Char) (cs : List Char) (n : Nat) (k : TokenKind)
    (h : tryMatchAt prev cs = some (n, k)) : 1 ≤ n ∧ k ≠ TokenKind.text := by
  unfold tryMatchAt at h
  cases hs : matchStringAlt cs with
  | some nc =>
    obtain ⟨n', colon⟩ := nc
    rw [hs] at h
    simp only [Option.some.injEq, Prod.mk.injEq] at h
    obtain ⟨hn, hk⟩ := h
    exact ⟨hn ▸ matchStringAlt_pos cs n' colon hs, hk ▸ classifyToken_ne_text _ _⟩
  | none =>
    rw [hs] at h
    cases hkw : matchKeywordAlt prev cs with
    | some nk =>
      rw [hkw] at h
      simp only [Option.some.injEq, Prod.mk.injEq] at h
      obtain ⟨hn, hk⟩ := h
      exact ⟨hn ▸ matchKeywordAlt_pos prev cs nk hkw, hk ▸ classifyToken_ne_text _ _⟩
    | none =>
      rw [hkw] at h
      cases hnum : matchNumberAlt cs with
      | some nn =>
        rw [hnum] at h
        simp only [Option.some.injEq, Prod.mk.injEq] at h
        obtain ⟨hn, hk⟩ := h
        exact ⟨hn ▸ matchNumberAlt_pos cs nn hnum, hk ▸ classifyToken_ne_text _ _⟩
      | none => rw [hnum] at h; cases h

/-- No two adjacent tokens are both plain text. -/
def noAdjacentText (a b : Token) : Prop :=
  ¬(a.kind = TokenKind.text ∧ b.kind = TokenKind.text)

/-- The scan loop only emits non-empty tokens, and never two adjacent
`text` tokens. -/
theorem scanAux_good (fuel : Nat) : ∀ (prev : Option Char) (pending cs : List Char),
    (∀ t ∈ scanAux fuel prev pending cs, t.content ≠ []) ∧
    (scanAux fuel prev pending cs).Chain' noAdjacentText := by
  induction fuel with
  | zero =>
    intro prev pending cs
    simp only [scanAux]
    split
    · exact ⟨by simp, List.chain'_nil⟩
    · next h =>
      rw [List.isEmpty_iff] at h
      exact ⟨by simpa using h, List.chain'_singleton _⟩
  | succ fuel ih =>
    intro prev pending cs
    match cs with
    | [] =>
      simp only [scanAux]
      split
      · exact ⟨by simp, List.chain'_nil⟩
      · next h =>
        have hpend : pending ≠ [] := by simpa using h
        refine ⟨?_, List.chain'_singleton _⟩
        intro t ht
        simp only [List.mem_singleton] at ht
        subst ht
        simpa using hpend
    | c :: rest =>
      cases htm : tryMatchAt prev (c :: rest) with
      | none =>
        simp only [scanAux, htm]
        exact ih (some c) (c :: pending) rest
      | some nk =>
        obtain ⟨n, k⟩ := nk
        obtain ⟨hn, hk⟩ := tryMatchAt_pos prev (c :: rest) n k htm
        have htok : (c :: rest).take n ≠ [] := by
          cases n with
          | zero => omega
          | succ m => simp
        obtain ⟨ihne, ihch⟩ := ih ((c :: rest).take n).getLast? [] ((c :: rest).drop n)
        simp only [scanAux, htm]
        split
        · refine ⟨?_, ?_⟩
          · intro t ht
            rcases List.mem_cons.mp ht with rfl | ht'
            · exact htok
            · exact ihne t ht'
          · refine List.chain'_cons'.mpr ⟨?_, ihch⟩
            intro y _
            exact fun hc => hk hc.1
        · next h =>
          have hpend : pending ≠ [] := by simpa using h
          refine ⟨?_, ?_⟩
          · intro t ht
            rcases List.mem_cons.mp ht with rfl | ht'
            · simpa using hpend
            · rcases List.mem_cons.mp ht' with rfl | ht''
              · exact htok
              · exact ihne t ht''
          · refine List.chain'_cons'.mpr ⟨?_, ?_⟩
            · intro y hy
              simp only [List.head?_cons, Option.mem_def, Option.some.injEq] at hy
              subst hy
              exact fun hc => hk hc.2
            · refine List.chain'_cons'.mpr ⟨?_, ihch⟩
              intro y _
              exact fun hc => hk hc.1

/-- Claim C9: every token emitted by `tokenize` has non-empty content, and
no two consecutive tokens are both `text` (so between any two recognized
lexemes at most one text token is emitted). -/
theorem tokenize_invariants (s : String) :
    (∀ t ∈ tokenize s, t.content ≠ []) ∧
    (tokenize s).Chain' noAdjacentText :=
  scanAux_good (s.toList.length + 1) none [] s.toList

/-- Witness for C9 at a concrete input. -/
theorem tokenize_invariants_witness :
    (⟨TokenKind.number, '4' :: '2' :: []⟩ : Token).content ≠ [] :=
  (tokenize_invariants "42").1 _ (by decide)

/-! ## JavaScript values

The extraction pipeline works on the dynamically typed values produced by
`JSON.parse`.  Numbers are kept as exact decimals (sign, significand
digits, and a power of ten), which agrees with IEEE doubles on every value
this program manipulates; `undefined` is the `undefined` produced by a missing
property. -/

/-- Value of a decimal digit list (most significant first). -/
def digitsToNat (ds : List Char) : Nat :=
  ds.foldl (fun acc c => acc * 10 + (c.toNat - 48)) 0

/-- A JavaScript number as parsed from a JSON numeric literal:
`(if neg then -1 else 1) * digitsToNat digits * 10 ^ expTen`. -/
structure JsNumber where
  neg : Bool
  digits : List Char
  expTen : Int
deriving DecidableEq

/-- A JavaScript value as produced by `JSON.parse` and property access. -/
inductive JsValue where
  | undefined
  | null
  | bool (b : Bool)
  | num (n : JsNumber)
  | str (s : String)
  | arr (elems : List JsValue)
  | obj (fields : List (String × JsValue))

/-- JavaScript truthiness: `undefined`, `null`, `false`, `0` and the empty
string are falsy; every object and array is truthy. -/
def truthy : JsValue → Bool
  | .undefined => false
  | .null => false
  | .bool b => b
  | .num n => digitsToNat n.digits != 0
  | .str s => !s.isEmpty
  | .arr _ => true
  | .obj _ => true

/-- Property lookup on an object's field list (keys are unique). -/
def objGet (fields : List (String × JsValue)) (k : String) : Option JsValue :=
  match fields with
  | [] => none
  | (k', v) :: rest => if k' == k then some v else objGet rest k

/-- Property insertion with JavaScript object semantics: an existing key
keeps its position and gets the new value, a new key is appended. -/
def objInsert (fields : List (String × JsValue)) (k : String) (v : JsValue) :
    List (String × JsValue) :=
  match fields with
  | [] => [(k, v)]
  | (k', v') :: rest =>
    if k' == k then (k, v) :: rest else (k', v') :: objInsert rest k v

/-- Property access `v[k]`, as a partial operation: `none` models the
TypeError thrown when reading a property of `null` or `undefined`;
on objects a missing key and on primitives any key read yields
`undefined` (built-in prototype properties are not modelled — the program
only reads the keys `timestamp`, `jsonPayload` and `message`). -/
def propOf (v : JsValue) (k : String) : Option JsValue :=
  match v with
  | .null => none
  | .undefined => none
  | .obj fields => some ((objGet fields k).getD .undefined)
  | _ => some .undefined

/-- Property access in the exception monad: models `v.k`, throwing the
TypeError message when `v` is `null` or `undefined`. -/
def getProp (v : JsValue) (k : String) : Except String JsValue :=
  match propOf v k with
  | some r => .ok r
  | none =>
    match v with
    | .null => .error ("Cannot read properties of null (reading " ++ k ++ ")")
    | _ => .error ("Cannot read properties of undefined (reading " ++ k ++ ")")

/-! ## JSON.parse -/

/-- JSON whitespace (space, tab, line feed, carriage return). -/
def isJsonWs (c : Char) : Bool :=
  c == ' ' || c == '\t' || c == '\n' || c == '\r'

/-- Skip JSON whitespace. -/
def skipJsonWs (cs : List Char) : List Char := cs.dropWhile isJsonWs

/-- Value of a hexadecimal digit. -/
def hexVal (c : Char) : Option Nat :=
  if c.isDigit then some (c.toNat - 48)
  else if 'a' ≤ c && c ≤ 'f' then some (c.toNat - 87)
  else if 'A' ≤ c && c ≤ 'F' then some (c.toNat - 55)
  else none

/-- Value of a four-hex-digit escape. -/
def parseHex4 (a b c d : Char) : Option Nat :=
  match hexVal a, hexVal b, hexVal c, hexVal d with
  | some x, some y, some z, some w => some (x * 4096 + y * 256 + z * 16 + w)
  | _, _, _, _ => none

/-- The single-character JSON string escapes: `"` `\` `/` denote
themselves, `b f n r t` denote the control characters 8, 12, 10, 13, 9. -/
def escapeChar (c : Char) : Option Char :=
  match c.toNat with
  | 34 => some c
  | 92 => some c
  | 47 => some c
  | 98 => some (Char.ofNat 8)
  | 102 => some (Char.ofNat 12)
  | 110 => some (Char.ofNat 10)
  | 114 => some (Char.ofNat 13)
  | 116 => some (Char.ofNat 9)
  | _ => none

/-- Body of a JSON string literal after the opening quote: returns the
decoded characters and the input after the closing quote.  Surrogate
pairs in `\u` escapes are combined; a lone surrogate (not a Lean scalar
value) decodes to U+FFFD. -/
def parseJsonStringBody : Nat → List Char → Except String (List Char × List Char)
  | 0, _ => .error "Unterminated string in JSON"
  | _ + 1, [] => .error "Unterminated string in JSON"
  | fuel + 1, c :: rest =>
    if c == '"' then .ok ([], rest)
    else if c == '\\' then
      match rest with
      | [] => .error "Unterminated string in JSON"
      | e :: rest2 =>
        if e == 'u' then
          match rest2 with
          | a :: b :: c2 :: d :: rest3 =>
            match parseHex4 a b c2 d with
            | none => .error "Bad Unicode escape in JSON"
            | some code =>
              if 0xd800 ≤ code && code ≤ 0xdbff then
                match rest3 with
                | '\\' :: 'u' :: a2 :: b2 :: c3 :: d2 :: rest4 =>
                  match parseHex4 a2 b2 c3 d2 with
                  | some code2 =>
                    if 0xdc00 ≤ code2 && code2 ≤ 0xdfff then
                      match parseJsonStringBody fuel rest4 with
                      | .ok (s, r) =>
                        .ok (Char.ofNat (0x10000 + (code - 0xd800) * 0x400 + (code2 - 0xdc00)) :: s, r)
                      | .error msg => .error msg
                    else
                      match parseJsonStringBody fuel rest3 with
                      | .ok (s, r) => .ok (Char.ofNat 0xfffd :: s, r)
                      | .error msg => .error msg
                  | none =>
                    match parseJsonStringBody fuel rest3 with
                    | .ok (s, r) => .ok (Char.ofNat 0xfffd :: s, r)
                    | .error msg => .error msg
                | _ =>
                  match parseJsonStringBody fuel rest3 with
                  | .ok (s, r) => .ok (Char.ofNat 0xfffd :: s, r)
                  | .error msg => .error msg
              else if 0xdc00 ≤ code && code ≤ 0xdfff then
                match parseJsonStringBody fuel rest3 with
                | .ok (s, r) => .ok (Char.ofNat 0xfffd :: s, r)
                | .error msg => .error msg
              else
                match parseJsonStringBody fuel rest3 with
                | .ok (s, r) => .ok (Char.ofNat code :: s, r)
                | .error msg => .error msg
          | _ => .error "Bad Unicode escape in JSON"
        else
          match escapeChar e with
          | some ec =>
            match parseJsonStringBody fuel rest2 with
            | .ok (s, r) => .ok (ec :: s, r)
            | .error msg => .error msg
          | none => .error "Bad escaped character in JSON"
    else if c.toNat < 0x20 then .error "Bad control character in JSON"
    else
      match parseJsonStringBody fuel rest with
      | .ok (s, r) => .ok (c :: s, r)
      | .error msg => .error msg

/-- An unsigned JSON number (`(0|[1-9][0-9]*)(\.[0-9]+)?([eE][+-]?[0-9]+)?`)
at the current position, plus the remaining input. -/
def parseJsonNumberBody (cs : List Char) : Option (JsNumber × List Char) :=
  match cs with
  | [] => none
  | c :: rest =>
    if !c.isDigit then none
    else
      let intDigits := if c == '0' then [c] else (c :: rest).takeWhile Char.isDigit
      let after := (c :: rest).drop intDigits.length
      let fracDigits := match after with
        | '.' :: r => r.takeWhile Char.isDigit
        | _ => []
      let fracLen := if fracDigits.isEmpty then 0 else fracDigits.length + 1
      let after2 := after.drop fracLen
      let expInfo : Option (Int × Nat) := match after2 with
        | e :: '+' :: r2 =>
          if (e == 'e' || e == 'E') && !(r2.takeWhile Char.isDigit).isEmpty then
            some ((digitsToNat (r2.takeWhile Char.isDigit) : Int),
                  2 + (r2.takeWhile Char.isDigit).length)
          else none
        | e :: '-' :: r2 =>
          if (e == 'e' || e == 'E') && !(r2.takeWhile Char.isDigit).isEmpty then
            some (-(digitsToNat (r2.takeWhile Char.isDigit) : Int),
                  2 + (r2.takeWhile Char.isDigit).length)
          else none
        | e :: r2 =>
          if (e == 'e' || e == 'E') && !(r2.takeWhile Char.isDigit).isEmpty then
            some ((digitsToNat (r2.takeWhile Char.isDigit) : Int),
                  1 + (r2.takeWhile Char.isDigit).length)
          else none
        | [] => none
      match expInfo with
      | some (ev, elen) =>
        some (⟨false, intDigits ++ fracDigits, ev - fracDigits.length⟩, after2.drop elen)
      | none =>
        some (⟨false, intDigits ++ fracDigits, -(fracDigits.length : Int)⟩, after2)

/-- A JSON number with optional leading minus sign. -/
def parseJsonNumber (cs : List Char) : Option (JsNumber × List Char) :=
  match cs with
  | '-' :: rest =>
    match parseJsonNumberBody rest with
    | some (n, r) => some (⟨true, n.digits, n.expTen⟩, r)
    | none => none
  | _ => parseJsonNumberBody cs

mutual

/-- `JSON.parse`'s value parser: skips leading whitespace and parses one
JSON value, returning it with the remaining input.  The fuel argument only
serves termination; `jsonParse` supplies more than the input length so it
never runs out on inputs the parser accepts. -/
def parseJsonValue : Nat → List Char → Except String (JsValue × List Char)
  | 0, _ => .error "Unexpected end of JSON input"
  | fuel + 1, cs =>
    match skipJsonWs cs with
    | [] => .error "Unexpected end of JSON input"
    | c :: rest =>
      if c == lbrace then parseJsonMembers fuel rest []
      else if c == '[' then parseJsonElements fuel rest []
      else if c == '"' then
        match parseJsonStringBody fuel rest with
        | .ok (s, r) => .ok (.str (String.mk s), r)
        | .error e => .error e
      else if ('t' :: 'r' :: 'u' :: 'e' :: []).isPrefixOf (c :: rest) then
        .ok (.bool true, (c :: rest).drop 4)
      else if ('f' :: 'a' :: 'l' :: 's' :: 'e' :: []).isPrefixOf (c :: rest) then
        .ok (.bool false, (c :: rest).drop 5)
      else if ('n' :: 'u' :: 'l' :: 'l' :: []).isPrefixOf (c :: rest) then
        .ok (.null, (c :: rest).drop 4)
      else
        match parseJsonNumber (c :: rest) with
        | some (n, r) => .ok (.num n, r)
        | none => .error "Unexpected token in JSON"

/-- Object members after the opening brace.  `acc` holds the members
parsed so far, in insertion order; a duplicate key overwrites in place. -/
def parseJsonMembers : Nat → List Char → List (String × JsValue) →
    Except String (JsValue × List Char)
  | 0, _, _ => .error "Unexpected end of JSON input"
  | fuel + 1, cs, acc =>
    match skipJsonWs cs with
    | [] => .error "Unexpected end of JSON input"
    | c :: rest =>
      if c == rbrace && acc.isEmpty then .ok (.obj [], rest)
      else if c == '"' then
        match parseJsonStringBody fuel rest with
        | .error e => .error e
        | .ok (key, r1) =>
          match skipJsonWs r1 with
          | ':' :: r2 =>
            match parseJsonValue fuel r2 with
            | .error e => .error e
            | .ok (v, r3) =>
              match skipJsonWs r3 with
              | ',' :: r4 => parseJsonMembers fuel r4 (objInsert acc (String.mk key) v)
              | c2 :: r4 =>
                if c2 == rbrace then .ok (.obj (objInsert acc (String.mk key) v), r4)
                else .error "Expected comma or closing brace after JSON object member"
              | [] => .error "Unexpected end of JSON input"
          | _ => .error "Expected colon after JSON property name"
      else .error "Expected property name or closing brace in JSON object"

/-- Array elements after the opening bracket. -/
def parseJsonElements : Nat → List Char → List JsValue →
    Except String (JsValue × List Char)
  | 0, _, _ => .error "Unexpected end of JSON input"
  | fuel + 1, cs, acc =>
    match skipJsonWs cs with
    | [] => .error "Unexpected end of JSON input"
    | c :: rest =>
      if c == ']' && acc.isEmpty then .ok (.arr [], rest)
      else
        match parseJsonValue fuel (c :: rest) with
        | .error e => .error e
        | .ok (v, r1) =>
          match skipJsonWs r1 with
          | ',' :: r2 => parseJsonElements fuel r2 (acc ++ [v])
          | ']' :: r2 => .ok (.arr (acc ++ [v]), r2)
          | _ => .error "Expected comma or closing bracket after JSON array element"

end

/-- `JSON.parse(s)`: parse a complete JSON text (error messages model the
engine's implementation-defined SyntaxError messages). -/
def jsonParse (s : String) : Except String JsValue :=
  match parseJsonValue (2 * s.toList.length + 2) s.toList with
  | .ok (v, rest) =>
    if (skipJsonWs rest).isEmpty then .ok v
    else .error "Unexpected non-whitespace character after JSON data"
  | .error e => .error e

/-! ## JSON.stringify with 2-space indentation -/

/-- `String(n)` for a parsed JavaScript number: trailing fractional zeros
are dropped and exponents expanded, matching the double-to-shortest-decimal
printing of the engine on the decimal values this program handles (the
exponential notation used beyond 1e21 and below 1e-6 is not modelled). -/
def numToString (n : JsNumber) : String :=
  if digitsToNat n.digits == 0 then "0"
  else
    let tz := (n.digits.reverse.takeWhile (fun c => c == '0')).length
    let strip := min tz (if n.expTen < 0 then (-n.expTen).toNat else 0)
    let ds := n.digits.take (n.digits.length - strip)
    let e := n.expTen + strip
    let body :=
      if 0 ≤ e then ds ++ List.replicate e.toNat '0'
      else
        let k := (-e).toNat
        if k < ds.length then ds.take (ds.length - k) ++ '.' :: ds.drop (ds.length - k)
        else '0' :: '.' :: (List.replicate (k - ds.length) '0' ++ ds)
    String.mk (if n.neg then '-' :: body else body)

/-- A lowercase hexadecimal digit. -/
def hexDigit (n : Nat) : Char :=
  if n < 10 then Char.ofNat (48 + n) else Char.ofNat (87 + n)

/-- Four lowercase hexadecimal digits. -/
def hex4 (n : Nat) : List Char :=
  [hexDigit (n / 4096 % 16), hexDigit (n / 256 % 16), hexDigit (n / 16 % 16),
   hexDigit (n % 16)]

/-- The characters of `QuoteJSONString` after the opening quote. -/
def quoteJsonChars : List Char → List Char
  | [] => ['"']
  | c :: rest =>
    if c == '"' then '\\' :: '"' :: quoteJsonChars rest
    else if c == '\\' then '\\' :: '\\' :: quoteJsonChars rest
    else if c.toNat == 8 then '\\' :: 'b' :: quoteJsonChars rest
    else if c.toNat == 12 then '\\' :: 'f' :: quoteJsonChars rest
    else if c == '\n' then '\\' :: 'n' :: quoteJsonChars rest
    else if c == '\r' then '\\' :: 'r' :: quoteJsonChars rest
    else if c == '\t' then '\\' :: 't' :: quoteJsonChars rest
    else if c.toNat < 0x20 then '\\' :: 'u' :: (hex4 c.toNat ++ quoteJsonChars rest)
    else c :: quoteJsonChars rest

/-- `JSON.stringify`'s string quoting. -/
def quoteJsonString (s : String) : String :=
  String.mk ('"' :: quoteJsonChars s.toList)

/-- Join with a separator. -/
def joinWith (sep : String) : List String → String
  | [] => ""
  | [x] => x
  | x :: xs => x ++ sep ++ joinWith sep xs

/-- `JSON.stringify(v, null, 2)` (page.js line 84): serialization with a
two-space gap.  `ind` is the indentation accumulated so far; the fuel
argument only serves termination and callers supply more than the nesting
depth. -/
def stringifyVal : Nat → String → JsValue → String
  | 0, _, _ => ""
  | fuel + 1, ind, v =>
    match v with
    | .undefined => "null"
    | .null => "null"
    | .bool true => "true"
    | .bool false => "false"
    | .num n => numToString n
    | .str s => quoteJsonString s
    | .arr [] => "[]"
    | .arr (x :: xs) =>
      "[\n" ++
        joinWith ",\n"
          ((x :: xs).map (fun y => ind ++ "  " ++ stringifyVal fuel (ind ++ "  ") y)) ++
        "\n" ++ ind ++ "]"
    | .obj [] => "\x7b\x7d"
    | .obj (f :: fs) =>
      "\x7b\n" ++
        joinWith ",\n"
          ((f :: fs).map (fun kv =>
            ind ++ "  " ++ quoteJsonString kv.1 ++ ": " ++
              stringifyVal fuel (ind ++ "  ") kv.2)) ++
        "\n" ++ ind ++ "\x7d"

/-! ## formatMessage (page.js lines 74–96) -/

/-- `String.prototype.indexOf` for a single character (`none` models the
sentinel `-1`). -/
def charIndexOf : List Char → Char → Option Nat
  | [], _ => none
  | c :: rest, t => if c == t then some 0 else (charIndexOf rest t).map (· + 1)

/-- `String.prototype.lastIndexOf` for a single character. -/
def charLastIndexOf (cs : List Char) (t : Char) : Option Nat :=
  (charIndexOf cs.reverse t).map (fun k => cs.length - 1 - k)

/-- `formatMessage(message)` on a string: locate the first left brace and
the last right brace; when both exist in that order, try to `JSON.parse`
the inclusive span and on success splice its 2-space re-serialization back
between the untouched prefix and suffix; otherwise (or when parsing fails)
return the message unchanged. -/
def formatMessage (message : String) : String :=
  match charIndexOf message.toList lbrace, charLastIndexOf message.toList rbrace with
  | some firstBrace, some lastBrace =>
    if firstBrace < lastBrace then
      let potentialJson := (message.toList.drop firstBrace).take (lastBrace + 1 - firstBrace)
      match jsonParse (String.mk potentialJson) with
      | .ok parsed =>
        String.mk (message.toList.take firstBrace) ++
          stringifyVal (potentialJson.length + 1) "" parsed ++
          String.mk (message.toList.drop (lastBrace + 1))
      | .error _ => message
    else message
  | _, _ => message

/-- `formatMessage` applied to an arbitrary JavaScript value, as the
pipeline does: on a string it runs the brace-splicing logic; on any other
value the very first `message.indexOf` either throws a TypeError that the
outer catch turns into `return message` (numbers, booleans, objects,
null), or finds no brace (arrays), so the value comes back unchanged. -/
def formatMessageV : JsValue → JsValue
  | .str s => .str (formatMessage s)
  | v => v

/-- `charIndexOf` finds the first occurrence. -/
theorem charIndexOf_append (t1 t2 : List Char) (t : Char) (h : t ∉ t1) :
    charIndexOf (t1 ++ t :: t2) t = some t1.length := by
  induction t1 with
  | nil => simp [charIndexOf]
  | cons c t1' ih =>
    have hne : c ≠ t := fun he => h (by simp [he])
    have hmem : t ∉ t1' := fun hm => h (List.mem_cons_of_mem c hm)
    show (if c == t then some 0 else (charIndexOf (t1' ++ t :: t2) t).map (· + 1))
        = some (c :: t1').length
    rw [if_neg (by simpa using hne), ih hmem]
    rfl

/-- Characterization of a successful `charIndexOf`. -/
theorem charIndexOf_some (cs : List Char) (t : Char) (i : Nat)
    (h : charIndexOf cs t = some i) :
    ∃ t1 t2, cs = t1 ++ t :: t2 ∧ t ∉ t1 ∧ t1.length = i := by
  induction cs generalizing i with
  | nil => cases h
  | cons c rest ih =>
    by_cases hc : (c == t) = true
    · simp only [charIndexOf, hc, if_true] at h
      obtain rfl : (0 : Nat) = i := by simpa using h
      exact ⟨[], rest, by simp [eq_of_beq hc], by simp, rfl⟩
    · simp only [charIndexOf, hc, Bool.false_eq_true, if_false] at h
      cases hr : charIndexOf rest t with
      | none => rw [hr] at h; cases h
      | some j =>
        rw [hr] at h
        simp only [Option.map_some', Option.some.injEq] at h
        obtain ⟨t1, t2, he, hn, hl⟩ := ih j hr
        refine ⟨c :: t1, t2, by simp [he], ?_, by simp [hl, ← h]⟩
        intro hm
        rcases List.mem_cons.mp hm with rfl | hm'
        · exact hc (by simp)
        · exact hn hm'

/-- `charLastIndexOf` finds the last occurrence. -/
theorem charLastIndexOf_append (t1 t2 : List Char) (t : Char) (h : t ∉ t2) :
    charLastIndexOf (t1 ++ t :: t2) t = some t1.length := by
  unfold charLastIndexOf
  have hrev : (t1 ++ t :: t2).reverse = t2.reverse ++ t :: t1.reverse := by
    simp
  rw [hrev, charIndexOf_append _ _ _ (by simpa using h)]
  simp only [Option.map_some', Option.some.injEq, List.length_reverse]
  have : (t1 ++ t :: t2).length = t1.length + t2.length + 1 := by simp; omega
  rw [this]
  omega

/-- Characterization of a successful `charLastIndexOf`. -/
theorem charLastIndexOf_some (cs : List Char) (t : Char) (i : Nat)
    (h : charLastIndexOf cs t = some i) :
    ∃ t1 t2, cs = t1 ++ t :: t2 ∧ t ∉ t2 ∧ t1.length = i := by
  unfold charLastIndexOf at h
  cases hr : charIndexOf cs.reverse t with
  | none => rw [hr] at h; cases h
  | some k =>
    rw [hr] at h
    simp only [Option.map_some', Option.some.injEq] at h
    obtain ⟨u1, u2, he, hn, hl⟩ := charIndexOf_some _ _ _ hr
    have hcs : cs = u2.reverse ++ t :: u1.reverse := by
      have := congrArg List.reverse he
      simpa using this
    have hlen : cs.length = u1.length + u2.length + 1 := by
      rw [hcs]; simp; omega
    refine ⟨u2.reverse, u1.reverse, hcs, by simpa using hn, ?_⟩
    simp only [List.length_reverse]
    omega

/-- Unfolding of `formatMessage` once both brace indices are known. -/
theorem formatMessage_eq_of_idx (m : String) (i j : Nat)
    (hi : charIndexOf m.toList lbrace = some i)
    (hj : charLastIndexOf m.toList rbrace = some j) :
    formatMessage m =
      (if i < j then
        match jsonParse (String.mk ((m.toList.drop i).take (j + 1 - i))) with
        | .ok parsed =>
          String.mk (m.toList.take i) ++
            stringifyVal (((m.toList.drop i).take (j + 1 - i)).length + 1) "" parsed ++
            String.mk (m.toList.drop (j + 1))
        | .error _ => m
      else m) := by
  unfold formatMessage
  rw [hi, hj]

/-- `formatMessage` returns its input when there is no left brace. -/
theorem formatMessage_eq_self_of_first_none (m : String)
    (h : charIndexOf m.toList lbrace = none) : formatMessage m = m := by
  unfold formatMessage
  rw [h]

/-- `formatMessage` returns its input when there is no right brace. -/
theorem formatMessage_eq_self_of_last_none (m : String)
    (h : charLastIndexOf m.toList rbrace = none) : formatMessage m = m := by
  unfold formatMessage
  rw [h]
  cases charIndexOf m.toList lbrace <;> rfl

/-- Claim C4: for every message string, if it contains a first left brace
and a last right brace with the latter strictly after the former and the
inclusive substring between them parses as JSON, `formatMessage` returns
the message with that substring replaced by its 2-space-indented
re-serialization, the prefix before the first left brace and the suffix
after the last right brace preserved verbatim; otherwise (no such span, or
the candidate fails to parse) it returns the message unchanged. -/
theorem formatMessage_spec (m : String) :
    (∀ (pre core suf : List Char) (v : JsValue),
        m.toList = pre ++ core ++ suf →
        lbrace ∉ pre →
        rbrace ∉ suf →
        core.head? = some lbrace →
        core.getLast? = some rbrace →
        2 ≤ core.length →
        jsonParse (String.mk core) = .ok v →
        formatMessage m =
          String.mk pre ++ stringifyVal (core.length + 1) "" v ++ String.mk suf) ∧
    ((¬ ∃ (pre core suf : List Char), m.toList = pre ++ core ++ suf ∧
        lbrace ∉ pre ∧ rbrace ∉ suf ∧
        core.head? = some lbrace ∧ core.getLast? = some rbrace ∧
        2 ≤ core.length ∧ ∃ v, jsonParse (String.mk core) = .ok v) →
      formatMessage m = m) := by
  constructor
  · intro pre core suf v hm hpre hsuf hhead hlast hlen hparse
    obtain ⟨core0, rfl⟩ := List.getLast?_eq_some_iff.mp hlast
    obtain ⟨mid, hmid⟩ : ∃ mid, core0 ++ [rbrace] = lbrace :: mid := by
      cases core0 with
      | nil => simp at hlen
      | cons c cr =>
        simp only [List.cons_append, List.head?_cons, Option.some.injEq] at hhead
        exact ⟨cr ++ [rbrace], by simp [hhead]⟩
    have hc0 : 1 ≤ core0.length := by
      simp only [List.length_append, List.length_cons, List.length_nil] at hlen
      omega
    have hidx : charIndexOf m.toList lbrace = some pre.length := by
      rw [hm, hmid]
      have hassoc : pre ++ (lbrace :: mid) ++ suf = pre ++ lbrace :: (mid ++ suf) := by simp
      rw [hassoc]
      exact charIndexOf_append _ _ _ hpre
    have hlidx : charLastIndexOf m.toList rbrace = some (pre.length + core0.length) := by
      rw [hm]
      have hassoc : pre ++ (core0 ++ [rbrace]) ++ suf = (pre ++ core0) ++ rbrace :: suf := by
        simp
      rw [hassoc, charLastIndexOf_append _ _ _ hsuf]
      simp
    have hlt : pre.length < pre.length + core0.length := by omega
    rw [formatMessage_eq_of_idx m _ _ hidx hlidx, if_pos hlt]
    have hdrop : m.toList.drop pre.length = (core0 ++ [rbrace]) ++ suf := by
      rw [hm]
      have hassoc : pre ++ (core0 ++ [rbrace]) ++ suf
          = pre ++ ((core0 ++ [rbrace]) ++ suf) := by simp
      rw [hassoc]
      exact List.drop_left' rfl
    have hpj : (m.toList.drop pre.length).take (pre.length + core0.length + 1 - pre.length)
        = core0 ++ [rbrace] := by
      rw [hdrop]
      have h1 : pre.length + core0.length + 1 - pre.length = core0.length + 1 := by omega
      rw [h1]
      exact List.take_left' (by simp)
    rw [hpj, hparse]
    have htake : m.toList.take pre.length = pre := by
      rw [hm]
      have hassoc : pre ++ (core0 ++ [rbrace]) ++ suf
          = pre ++ ((core0 ++ [rbrace]) ++ suf) := by simp
      rw [hassoc]
      exact List.take_left' rfl
    have hdrop2 : m.toList.drop (pre.length + core0.length + 1) = suf := by
      rw [hm]
      have hassoc : pre ++ (core0 ++ [rbrace]) ++ suf
          = (pre ++ (core0 ++ [rbrace])) ++ suf := by simp
      rw [hassoc]
      exact List.drop_left' (by simp <;> omega)
    show String.mk (m.toList.take pre.length) ++ _ ++
        String.mk (m.toList.drop (pre.length + core0.length + 1)) = _
    rw [htake, hdrop2]
  · intro hno
    cases hfi : charIndexOf m.toList lbrace with
    | none => exact formatMessage_eq_self_of_first_none m hfi
    | some first =>
      cases hli : charLastIndexOf m.toList rbrace with
      | none => exact formatMessage_eq_self_of_last_none m hli
      | some last =>
        rw [formatMessage_eq_of_idx m first last hfi hli]
        by_cases hlt : first < last
        · rw [if_pos hlt]
          cases hp : jsonParse (String.mk ((m.toList.drop first).take (last + 1 - first))) with
          | error e => rfl
          | ok v =>
            exfalso
            apply hno
            obtain ⟨t1, t2, hm1, hnotin1, hlen1⟩ := charIndexOf_some _ _ _ hfi
            obtain ⟨u1, u2, hm2, hnotin2, hlen2⟩ := charLastIndexOf_some _ _ _ hli
            have hlm : m.toList.length = first + 1 + t2.length := by
              rw [hm1]; simp; omega
            have hlm2 : m.toList.length = last + 1 + u2.length := by
              rw [hm2]; simp; omega
            have h1 : m.toList.take first = t1 := by
              rw [hm1]; exact List.take_left' hlen1
            have h4 : m.toList.drop first = lbrace :: t2 := by
              rw [hm1]; exact List.drop_left' hlen1
            have h2 : m.toList.drop (last + 1) = u2 := by
              rw [hm2]
              have : u1 ++ rbrace :: u2 = (u1 ++ [rbrace]) ++ u2 := by simp
              rw [this]
              exact List.drop_left' (by simp [hlen2])
            have hd : m.toList.drop (last + 1)
                = (m.toList.drop first).drop (last + 1 - first) := by
              rw [List.drop_drop]
              congr 1
              omega
            have h3 : (m.toList.drop first).take (last + 1 - first) ++ u2
                = m.toList.drop first := by
              conv_lhs => rw [← h2, hd]
              exact List.take_append_drop _ _
            refine ⟨t1, (m.toList.drop first).take (last + 1 - first), u2, ?_, hnotin1,
              hnotin2, ?_, ?_, ?_, ⟨v, hp⟩⟩
            · rw [List.append_assoc, h3, ← h1]
              exact (List.take_append_drop _ _).symm
            · rw [h4]
              have he : last + 1 - first = (last - first) + 1 := by omega
              rw [he, List.take_succ_cons, List.head?_cons]
            · have htk : m.toList.take (last + 1) = u1 ++ [rbrace] := by
                rw [hm2]
                have : u1 ++ rbrace :: u2 = (u1 ++ [rbrace]) ++ u2 := by simp
                rw [this]
                exact List.take_left' (by simp [hlen2])
              have hcore : (m.toList.drop first).take (last + 1 - first)
                  = (u1 ++ [rbrace]).drop first := by
                rw [← htk]
                rw [List.drop_take]
              rw [hcore]
              rw [List.drop_append_eq_append_drop]
              have : first - u1.length = 0 := by omega
              rw [this]
              simp only [List.drop_zero]
              exact List.getLast?_concat _
            · simp only [List.length_take, List.length_drop]
              omega
        · rw [if_neg hlt]

/-- Witness for C4, at the message of spec section 8's pretty-print test. -/
theorem formatMessage_spec_witness :
    formatMessage "prefix \x7b\"a\":1,\"b\":[1,2]\x7d suffix" =
      String.mk "prefix ".toList ++
        stringifyVal ("\x7b\"a\":1,\"b\":[1,2]\x7d".toList.length + 1) ""
          (JsValue.obj [("a", .num ⟨false, ['1'], 0⟩),
                        ("b", .arr [.num ⟨false, ['1'], 0⟩, .num ⟨false, ['2'], 0⟩])]) ++
        String.mk " suffix".toList :=
  (formatMessage_spec "prefix \x7b\"a\":1,\"b\":[1,2]\x7d suffix").1
    "prefix ".toList "\x7b\"a\":1,\"b\":[1,2]\x7d".toList " suffix".toList
    _ rfl (by decide) (by decide) rfl rfl (by decide) rfl

/-- Sanity check: the pretty-print test of spec section 8, with its exact
expected output. -/
theorem formatMessage_pretty_example :
    formatMessage "prefix \x7b\"a\":1,\"b\":[1,2]\x7d suffix"
      = "prefix \x7b\n  \"a\": 1,\n  \"b\": [\n    1,\n    2\n  ]\n\x7d suffix" := by
  rfl

/-- Sanity check: a message without braces is returned unchanged. -/
theorem formatMessage_no_braces : formatMessage "no braces here" = "no braces here" := by
  rfl

/-- Sanity check: braces whose content does not parse leave the message
unchanged. -/
theorem formatMessage_bad_json :
    formatMessage "\x7bnot valid json\x7d" = "\x7bnot valid json\x7d" := by
  rfl

/-! ## Date parsing (`new Date(x).getTime()`)

Only the ECMAScript Date Time String Format
(`YYYY[-MM[-DD]][THH:mm[:ss[.s…]][Z|±HH:mm]]`) is modelled; any other
string yields an invalid date (`none`, the model of `NaN`), matching the
spec-mandated behaviour (other accepted layouts are implementation-defined
and are not exercised by this program's documented inputs).  A date-time
without an offset designator is interpreted in UTC (the engine would use
the host's local zone; the model fixes UTC). -/

/-- Days from the epoch 1970-01-01 of the proleptic Gregorian date
`y-m-d` (Howard Hinnant's `days_from_civil`).  All divisions are exact or
on non-negative operands for the years a four-digit timestamp can carry. -/
def daysFromCivil (y : Int) (m d : Nat) : Int :=
  let yAdj : Int := if m ≤ 2 then y - 1 else y
  let era : Int := (if 0 ≤ yAdj then yAdj else yAdj - 399) / 400
  let yoe : Int := yAdj - era * 400
  let mp : Nat := if 2 < m then m - 3 else m + 9
  let doy : Int := (153 * (mp : Int) + 2) / 5 + (d : Int) - 1
  let doe : Int := yoe * 365 + yoe / 4 - yoe / 100 + doy
  era * 146097 + doe - 719468

/-- Number of days in a month of the proleptic Gregorian calendar. -/
def daysInMonth (y : Int) (m : Nat) : Nat :=
  if m == 2 then
    if y % 4 == 0 && (y % 100 != 0 || y % 400 == 0) then 29 else 28
  else if m == 4 || m == 6 || m == 9 || m == 11 then 30
  else 31

/-- Exactly two decimal digits. -/
def digits2 : List Char → Option (Nat × List Char)
  | a :: b :: rest =>
    if a.isDigit && b.isDigit then
      some ((a.toNat - 48) * 10 + (b.toNat - 48), rest)
    else none
  | _ => none

/-- Exactly four decimal digits. -/
def digits4 : List Char → Option (Nat × List Char)
  | a :: b :: c :: d :: rest =>
    if a.isDigit && b.isDigit && c.isDigit && d.isDigit then
      some ((a.toNat - 48) * 1000 + (b.toNat - 48) * 100 + (c.toNat - 48) * 10 +
        (d.toNat - 48), rest)
    else none
  | _ => none

/-- Milliseconds denoted by a fractional-second digit run (first three
digits, right-padded with zeros). -/
def fracMs (ds : List Char) : Nat :=
  digitsToNat ((ds ++ ['0', '0', '0']).take 3)

/-- The time-of-day and offset part after the `T`: returns milliseconds
into the day and the offset in minutes. -/
def parseIsoTime (cs : List Char) : Option (Nat × Int) :=
  match digits2 cs with
  | none => none
  | some (hh, r1) =>
    match r1 with
    | ':' :: r2 =>
      match digits2 r2 with
      | none => none
      | some (mi, r3) =>
        let withSec : Option (Nat × Nat × List Char) := match r3 with
          | ':' :: r4 =>
            match digits2 r4 with
            | none => none
            | some (ss, r5) =>
              match r5 with
              | '.' :: r6 =>
                let ds := r6.takeWhile Char.isDigit
                if ds.isEmpty then none
                else some (ss, fracMs ds, r6.drop ds.length)
              | _ => some (ss, 0, r5)
          | _ => some (0, 0, r3)
        match withSec with
        | none => none
        | some (ss, ms, r7) =>
          let tod := hh * 3600000 + mi * 60000 + ss * 1000 + ms
          if hh > 24 || mi > 59 || ss > 59 || (hh == 24 && (mi != 0 || ss != 0 || ms != 0))
          then none
          else
            match r7 with
            | [] => some (tod, 0)
            | ['Z'] => some (tod, 0)
            | '+' :: r8 =>
              match digits2 r8 with
              | some (oh, ':' :: r9) =>
                match digits2 r9 with
                | some (om, []) =>
                  if oh ≤ 23 && om ≤ 59 then some (tod, (oh * 60 + om : Nat)) else none
                | _ => none
              | _ => none
            | '-' :: r8 =>
              match digits2 r8 with
              | some (oh, ':' :: r9) =>
                match digits2 r9 with
                | some (om, []) =>
                  if oh ≤ 23 && om ≤ 59 then some (tod, -((oh * 60 + om : Nat) : Int))
                  else none
                | _ => none
              | _ => none
            | _ => none
    | _ => none

/-- Parse an ECMAScript date-time string into epoch milliseconds. -/
def parseIsoDate (s : String) : Option Int :=
  let finish : Int → Nat → Nat → Nat → Int → Option Int := fun y mo d tod off =>
    some (daysFromCivil y mo d * 86400000 + (tod : Int) - off * 60000)
  match digits4 s.toList with
  | none => none
  | some (y, r0) =>
    match r0 with
    | [] => finish y 1 1 0 0
    | 'T' :: r1 =>
      match parseIsoTime r1 with
      | some (tod, off) => finish y 1 1 tod off
      | none => none
    | '-' :: r1 =>
      match digits2 r1 with
      | none => none
      | some (mo, r2) =>
        if mo < 1 || mo > 12 then none
        else
          match r2 with
          | [] => finish y mo 1 0 0
          | 'T' :: r3 =>
            match parseIsoTime r3 with
            | some (tod, off) => finish y mo 1 tod off
            | none => none
          | '-' :: r3 =>
            match digits2 r3 with
            | none => none
            | some (d, r4) =>
              if d < 1 || d > daysInMonth y mo then none
              else
                match r4 with
                | [] => finish y mo d 0 0
                | 'T' :: r5 =>
                  match parseIsoTime r5 with
                  | some (tod, off) => finish y mo d tod off
                  | none => none
                | _ => none
          | _ => none
    | _ => none

/-- Truncation toward zero of a parsed number's value. -/
def jsNumToInt (n : JsNumber) : Int :=
  let mag : Nat :=
    if 0 ≤ n.expTen then digitsToNat n.digits * 10 ^ n.expTen.toNat
    else digitsToNat n.digits / 10 ^ (-n.expTen).toNat
  if n.neg then -(mag : Int) else (mag : Int)

mutual

/-- `String(v)` for the values that can reach a `Date` constructor here
(`ToPrimitive` on an array is its comma-joined stringification, with
`null`/`undefined` elements blank). -/
def jsToStr : JsValue → String
  | .undefined => "undefined"
  | .null => "null"
  | .bool true => "true"
  | .bool false => "false"
  | .num n => numToString n
  | .str s => s
  | .obj _ => "[object Object]"
  | .arr xs => joinWith "," (jsToStrList xs)

/-- `Array.prototype.join`'s element strings (`null`/`undefined` become
blank). -/
def jsToStrList : List JsValue → List String
  | [] => []
  | .null :: xs => "" :: jsToStrList xs
  | .undefined :: xs => "" :: jsToStrList xs
  | x :: xs => jsToStr x :: jsToStrList xs

end

/-- `new Date(v).getTime()` — `none` models `NaN` (an invalid date).
Strings go through the Date Time String Format parser; numbers are taken
as epoch milliseconds, truncated and clipped to the valid time range;
`null` and booleans convert through `ToNumber`; arrays convert through
their string form; plain objects stringify to `[object Object]`, which
never parses. -/
def dateGetTime : JsValue → Option Int
  | .str s => parseIsoDate s
  | .num n =>
    let t := jsNumToInt n
    if t.natAbs ≤ 8640000000000000 then some t else none
  | .bool b => some (if b then 1 else 0)
  | .null => some 0
  | .undefined => none
  | .arr xs => parseIsoDate (jsToStr (.arr xs))
  | .obj _ => none

/-! ## The extraction pipeline (page.js lines 99-141) -/

/-- `String.prototype.trim`. -/
def jsTrim (s : String) : String :=
  String.mk (((s.toList.dropWhile isJsSpace).reverse.dropWhile isJsSpace).reverse)

/-- The sort comparator (page.js lines 120–124):
`new Date(a.timestamp).getTime() - new Date(b.timestamp).getTime()`.
Property access can throw (null entries); an invalid date on either side
makes the difference `NaN`, modelled as `none`. -/
def compareLogs (a b : JsValue) : Except String (Option Int) :=
  match getProp a "timestamp" with
  | .error e => .error e
  | .ok ta =>
    match getProp b "timestamp" with
    | .error e => .error e
    | .ok tb =>
      .ok (match dateGetTime ta, dateGetTime tb with
           | some x, some y => some (x - y)
           | _, _ => none)

/-- How `Array.prototype.sort` consumes a comparator value: an element is
placed before another when the comparator is not positive; a `NaN`
comparator result is treated like `0`. -/
def jsLe : Option Int → Bool
  | some v => decide (v ≤ 0)
  | none => true

/-- One insertion step of the stable sort: `a` goes after every existing
element that does not compare after it. -/
def orderedInsertE (a : JsValue) : List JsValue → Except String (List JsValue)
  | [] => .ok [a]
  | b :: l =>
    match compareLogs a b with
    | .error e => .error e
    | .ok c =>
      if jsLe c then .ok (a :: b :: l)
      else
        match orderedInsertE a l with
        | .ok r => .ok (b :: r)
        | .error e => .error e

/-- `logs.sort(comparator)`: `Array.prototype.sort` is stable (ES2019), so
for a consistent comparator it is observationally the stable insertion
sort; comparator exceptions propagate. -/
def jsSortE : List JsValue → Except String (List JsValue)
  | [] => .ok []
  | b :: l =>
    match jsSortE l with
    | .error e => .error e
    | .ok s => orderedInsertE b s

/-- The filter predicate `log => log.jsonPayload && log.jsonPayload.message`
(page.js line 128); `&&` short-circuits, and property access on a `null`
entry throws. -/
def keepLogE (log : JsValue) : Except String Bool :=
  match getProp log "jsonPayload" with
  | .error e => .error e
  | .ok p =>
    if truthy p then
      match getProp p "message" with
      | .error e => .error e
      | .ok m => .ok (truthy m)
    else .ok false

/-- `sortedLogs.filter(...)`. -/
def filterLogsE : List JsValue → Except String (List JsValue)
  | [] => .ok []
  | x :: xs =>
    match keepLogE x with
    | .error e => .error e
    | .ok b =>
      match filterLogsE xs with
      | .error e => .error e
      | .ok r => .ok (if b then x :: r else r)

/-- `.map(log => formatMessage(log.jsonPayload.message))` (page.js
line 129). -/
def mapMsgsE : List JsValue → Except String (List JsValue)
  | [] => .ok []
  | x :: xs =>
    match getProp x "jsonPayload" with
    | .error e => .error e
    | .ok p =>
      match getProp p "message" with
      | .error e => .error e
      | .ok m =>
        match mapMsgsE xs with
        | .error e => .error e
        | .ok r => .ok (formatMessageV m :: r)

/-- The `try` block of the extraction effect (page.js lines 108–137):
parse, array-shape check, sort, filter, map.  Any thrown error is the
`Except.error` value the catch receives. -/
def runExtract (rawText : String) : Except String (List JsValue) :=
  match jsonParse rawText with
  | .error e => .error e
  | .ok logs =>
    match logs with
    | .arr xs =>
      match jsSortE xs with
      | .error e => .error e
      | .ok sorted =>
        match filterLogsE sorted with
        | .error e => .error e
        | .ok kept => mapMsgsE kept
    | _ => .error "Input JSON must be an array of log entries"

/-- The observable result of one extraction run: the message sequence, its
count, and the error field. -/
structure ExtractionResult where
  orderedMessages : List JsValue
  count : Nat
  error : Option String

/-- `extract(rawText)`: empty or all-whitespace input resets the outputs
without parsing; otherwise the pipeline's result or its error is
published. -/
def extract (rawText : String) : ExtractionResult :=
  if (jsTrim rawText).isEmpty then ⟨[], 0, none⟩
  else
    match runExtract rawText with
    | .ok msgs => ⟨msgs, msgs.length, none⟩
    | .error e => ⟨[], 0, some e⟩

/-! ## Pure mirrors of the pipeline stages, used to state properties -/

/-- `new Date(e.timestamp).getTime()` for one entry, with the property
access in the exception monad. -/
def entryTimeE (e : JsValue) : Except String (Option Int) :=
  match getProp e "timestamp" with
  | .error msg => .error msg
  | .ok t => .ok (dateGetTime t)

/-- The sort key of an entry whose timestamp is a valid instant
(`0` elsewhere; only used under a validity hypothesis). -/
def timeD (e : JsValue) : Int :=
  match entryTimeE e with
  | .ok (some t) => t
  | _ => 0

/-- An entry whose timestamp denotes a valid date-time instant (so the
comparator neither throws nor produces `NaN` on it). -/
@[reducible] def validTime (e : JsValue) : Prop :=
  ∃ t : Int, entryTimeE e = .ok (some t)

/-- Pure version of the filter predicate (total on non-null entries). -/
def keepD (log : JsValue) : Bool :=
  match propOf log "jsonPayload" with
  | none => false
  | some p =>
    truthy p &&
      (match propOf p "message" with
       | some m => truthy m
       | none => false)

/-- The `jsonPayload.message` value of an entry. -/
def msgD (log : JsValue) : JsValue :=
  match propOf log "jsonPayload" with
  | some p => (propOf p "message").getD .undefined
  | none => .undefined

/-- The formatted message an entry contributes to the output. -/
def fmtD (log : JsValue) : JsValue := formatMessageV (msgD log)

/-- A value on which property access does not throw. -/
@[reducible] def accessOk (v : JsValue) : Prop :=
  v ≠ JsValue.null ∧ v ≠ JsValue.undefined

/-- Property access succeeds exactly when `propOf` answers. -/
theorem getProp_eq_of_propOf {v : JsValue} {k : String} {r : JsValue}
    (h : propOf v k = some r) : getProp v k = .ok r := by
  unfold getProp
  rw [h]

/-- Property access on anything but `null`/`undefined` answers. -/
theorem propOf_isSome (v : JsValue) (k : String) (h : accessOk v) :
    ∃ r, propOf v k = some r := by
  obtain ⟨h1, h2⟩ := h
  cases v with
  | null => exact absurd rfl h1
  | undefined => exact absurd rfl h2
  | bool b => exact ⟨.undefined, rfl⟩
  | num n => exact ⟨.undefined, rfl⟩
  | str s => exact ⟨.undefined, rfl⟩
  | arr xs => exact ⟨.undefined, rfl⟩
  | obj fs => exact ⟨_, rfl⟩

/-- A truthy value supports property access. -/
theorem truthy_accessOk {p : JsValue} (h : truthy p = true) : accessOk p := by
  cases p with
  | null => cases h
  | undefined => cases h
  | bool b => exact ⟨fun hc => JsValue.noConfusion hc, fun hc => JsValue.noConfusion hc⟩
  | num n => exact ⟨fun hc => JsValue.noConfusion hc, fun hc => JsValue.noConfusion hc⟩
  | str s => exact ⟨fun hc => JsValue.noConfusion hc, fun hc => JsValue.noConfusion hc⟩
  | arr xs => exact ⟨fun hc => JsValue.noConfusion hc, fun hc => JsValue.noConfusion hc⟩
  | obj fs => exact ⟨fun hc => JsValue.noConfusion hc, fun hc => JsValue.noConfusion hc⟩

/-- The comparator never throws on entries supporting property access. -/
theorem compareLogs_ok (a b : JsValue) (ha : accessOk a) (hb : accessOk b) :
    ∃ c, compareLogs a b = .ok c := by
  obtain ⟨ra, hra⟩ := propOf_isSome a "timestamp" ha
  obtain ⟨rb, hrb⟩ := propOf_isSome b "timestamp" hb
  refine ⟨(match dateGetTime ra, dateGetTime rb with
           | some x, some y => some (x - y)
           | _, _ => none), ?_⟩
  simp only [compareLogs, getProp_eq_of_propOf hra, getProp_eq_of_propOf hrb]

/-- Insertion succeeds on throw-free entries and permutes. -/
theorem orderedInsertE_ok (a : JsValue) (l : List JsValue) (ha : accessOk a)
    (hl : ∀ x ∈ l, accessOk x) :
    ∃ r, orderedInsertE a l = .ok r ∧ r.Perm (a :: l) := by
  induction l with
  | nil => exact ⟨[a], rfl, List.Perm.refl _⟩
  | cons b bs ih =>
    obtain ⟨c, hc⟩ := compareLogs_ok a b ha (hl b (List.mem_cons_self b bs))
    by_cases hle : jsLe c = true
    · refine ⟨a :: b :: bs, ?_, List.Perm.refl _⟩
      simp [orderedInsertE, hc, hle]
    · obtain ⟨r, hr, hperm⟩ := ih (fun x hx => hl x (List.mem_cons_of_mem b hx))
      refine ⟨b :: r, ?_, ?_⟩
      · simp [orderedInsertE, hc, hle, hr]
      · exact (hperm.cons b).trans (List.Perm.swap a b bs)

/-- The sort succeeds on throw-free entries and permutes the input. -/
theorem jsSortE_ok (l : List JsValue) (hl : ∀ x ∈ l, accessOk x) :
    ∃ s, jsSortE l = .ok s ∧ s.Perm l := by
  induction l with
  | nil => exact ⟨[], rfl, List.Perm.refl _⟩
  | cons b bs ih =>
    obtain ⟨s, hs, hperm⟩ := ih (fun x hx => hl x (List.mem_cons_of_mem b hx))
    have hmem : ∀ x ∈ s, accessOk x := fun x hx =>
      hl x (List.mem_cons_of_mem b (hperm.mem_iff.mp hx))
    obtain ⟨r, hr, hperm2⟩ :=
      orderedInsertE_ok b s (hl b (List.mem_cons_self b bs)) hmem
    refine ⟨r, ?_, hperm2.trans (hperm.cons b)⟩
    simp [jsSortE, hs, hr]

/-- The filter predicate never throws on a throw-free entry, and agrees
with its pure mirror. -/
theorem keepLogE_eq (log : JsValue) (h : accessOk log) :
    keepLogE log = .ok (keepD log) := by
  obtain ⟨p, hp⟩ := propOf_isSome log "jsonPayload" h
  by_cases ht : truthy p = true
  · obtain ⟨m, hm⟩ := propOf_isSome p "message" (truthy_accessOk ht)
    simp [keepLogE, keepD, getProp_eq_of_propOf hp, getProp_eq_of_propOf hm,
      hp, hm, ht]
  · have ht' : truthy p = false := by simpa using ht
    simp [keepLogE, keepD, getProp_eq_of_propOf hp, hp, ht']

/-- The filter stage never throws on throw-free entries, and agrees with
`List.filter keepD`. -/
theorem filterLogsE_eq (l : List JsValue) (h : ∀ x ∈ l, accessOk x) :
    filterLogsE l = .ok (l.filter keepD) := by
  induction l with
  | nil => rfl
  | cons x xs ih =>
    have h1 := keepLogE_eq x (h x (List.mem_cons_self x xs))
    have h2 := ih (fun y hy => h y (List.mem_cons_of_mem x hy))
    cases hk : keepD x <;>
      simp [filterLogsE, h1, h2, List.filter_cons, hk]

/-- `keepD` certifies the property accesses the map stage performs. -/
theorem keepD_spec (x : JsValue) (h : keepD x = true) :
    ∃ p m, propOf x "jsonPayload" = some p ∧ truthy p = true ∧
      propOf p "message" = some m ∧ truthy m = true ∧ msgD x = m := by
  cases hp : propOf x "jsonPayload" with
  | none => simp [keepD, hp] at h
  | some p =>
    cases hm : propOf p "message" with
    | none => simp [keepD, hp, hm] at h
    | some m =>
      simp only [keepD, hp, hm, Bool.and_eq_true] at h
      refine ⟨p, m, rfl, h.1, hm, h.2, ?_⟩
      simp [msgD, hp, hm]

/-- The map stage never throws on entries that passed the filter, and
agrees with `List.map fmtD`. -/
theorem mapMsgsE_eq (l : List JsValue) (h : ∀ x ∈ l, keepD x = true) :
    mapMsgsE l = .ok (l.map fmtD) := by
  induction l with
  | nil => rfl
  | cons x xs ih =>
    obtain ⟨p, m, hp, ht, hm, _, hmsg⟩ := keepD_spec x (h x (List.mem_cons_self x xs))
    have hfx : formatMessageV m = fmtD x := by simp [fmtD, hmsg]
    simp only [mapMsgsE, getProp_eq_of_propOf hp, getProp_eq_of_propOf hm,
      ih (fun y hy => h y (List.mem_cons_of_mem x hy)), hfx, List.map_cons]

/-- The whole `try` block, when the input parses to an array that sorts
without throwing into a list of throw-free entries. -/
theorem runExtract_eq (raw : String) (l s : List JsValue)
    (hp : jsonParse raw = .ok (.arr l))
    (hs : jsSortE l = .ok s)
    (hmem : ∀ x ∈ s, accessOk x) :
    runExtract raw = .ok ((s.filter keepD).map fmtD) := by
  unfold runExtract
  simp only [hp, hs, filterLogsE_eq s hmem]
  exact mapMsgsE_eq _ (fun x hx => (List.mem_filter.mp hx).2)

/-- `extract` publishes a successful pipeline run verbatim. -/
theorem extract_eq_ok (raw : String) (msgs : List JsValue)
    (hne : (jsTrim raw).isEmpty = false)
    (h : runExtract raw = .ok msgs) :
    extract raw = ⟨msgs, msgs.length, none⟩ := by
  unfold extract
  rw [if_neg (by simp [hne]), h]

/-! ## Claims about the extraction pipeline -/

/-- Claim C8: for every input string that is empty or all-whitespace,
`extract` returns empty orderedMessages, count 0, and no error (without
attempting to parse the input — the early return fires before
`JSON.parse`). -/
theorem extract_empty_input (raw : String) (h : (jsTrim raw).isEmpty = true) :
    (extract raw).orderedMessages = [] ∧ (extract raw).count = 0 ∧
      (extract raw).error = none := by
  unfold extract
  rw [if_pos h]
  exact ⟨rfl, rfl, rfl⟩

/-- Witness for C8 on an all-whitespace input. -/
theorem extract_empty_input_witness :
    (extract "   ").orderedMessages = [] ∧ (extract "   ").count = 0 ∧
      (extract "   ").error = none :=
  extract_empty_input "   " (by decide)

/-- Claim C7: input whose text parses as JSON but not as an array yields
exactly the error "Input JSON must be an array of log entries", with empty
orderedMessages and count 0. -/
theorem extract_non_array (raw : String) (v : JsValue)
    (hne : (jsTrim raw).isEmpty = false)
    (hp : jsonParse raw = .ok v)
    (hv : ∀ xs, v ≠ JsValue.arr xs) :
    (extract raw).orderedMessages = [] ∧ (extract raw).count = 0 ∧
      (extract raw).error = some "Input JSON must be an array of log entries" := by
  unfold extract runExtract
  rw [if_neg (by simp [hne])]
  simp only [hp]
  cases v with
  | arr xs => exact absurd rfl (hv xs)
  | undefined => simp
  | null => simp
  | bool b => simp
  | num n => simp
  | str s => simp
  | obj fs => simp

/-- Witness for C7 on the non-array input of spec section 8. -/
theorem extract_non_array_witness :
    (extract "\x7b\"a\":1\x7d").orderedMessages = [] ∧
      (extract "\x7b\"a\":1\x7d").count = 0 ∧
      (extract "\x7b\"a\":1\x7d").error
        = some "Input JSON must be an array of log entries" :=
  extract_non_array "\x7b\"a\":1\x7d" (.obj [("a", .num ⟨false, ['1'], 0⟩)])
    (by decide) rfl (fun xs h => by cases h)

/-- Counterexample to C2 as frozen: the non-empty input "[]" (a valid
array with no entries) yields both an empty message list and no error, so
"exactly one of non-empty orderedMessages or error" fails on non-empty
input. -/
theorem extract_exactly_one_counterexample :
    (jsTrim "[]").isEmpty = false ∧ (extract "[]").orderedMessages = [] ∧
      (extract "[]").error = none := ⟨rfl, rfl, rfl⟩

/-- Claim C2 (amended): non-empty orderedMessages and a set error never
hold together, and for empty (all-whitespace) input both orderedMessages
is empty and error is unset.  A non-empty input may yield both an empty
list and no error (valid array, no surviving entries). -/
theorem extract_error_xor_messages (raw : String) :
    ((extract raw).orderedMessages = [] ∨ (extract raw).error = none) ∧
      ((jsTrim raw).isEmpty = true →
        (extract raw).orderedMessages = [] ∧ (extract raw).error = none) := by
  unfold extract
  by_cases h : (jsTrim raw).isEmpty = true
  · rw [if_pos h]
    exact ⟨Or.inl rfl, fun _ => ⟨rfl, rfl⟩⟩
  · rw [if_neg h]
    refine ⟨?_, fun hc => absurd hc h⟩
    cases runExtract raw with
    | ok msgs => exact Or.inr rfl
    | error e => exact Or.inl rfl

/-- Witness for C2 (amended) on the empty input. -/
theorem extract_error_xor_messages_witness :
    (extract "").orderedMessages = [] ∧ (extract "").error = none :=
  (extract_error_xor_messages "").2 (by decide)

/-- Counterexample to C6 as frozen: in the array "[null]" the single entry
has no (truthy) `jsonPayload.message`, yet it is not silently dropped —
reading `jsonPayload` off `null` throws, and the catch sets the error
field. -/
theorem extract_drop_counterexample :
    (extract "[null]").error
        = some "Cannot read properties of null (reading jsonPayload)" ∧
      (extract "[null]").count = 0 := ⟨rfl, rfl⟩

/-- Claim C6 (amended): entries that are not `null` and whose
`jsonPayload.message` is missing or not truthy are silently dropped —
the count equals the number of entries passing the filter, and no error is
set.  (A `null` entry instead makes the property access throw and sets the
error.) -/
theorem extract_drops_silently (raw : String) (l : List JsValue)
    (hne : (jsTrim raw).isEmpty = false)
    (hp : jsonParse raw = .ok (.arr l))
    (hnn : ∀ x ∈ l, accessOk x) :
    (extract raw).error = none ∧ (extract raw).count = l.countP keepD := by
  obtain ⟨s, hs, hperm⟩ := jsSortE_ok l hnn
  have hmem : ∀ x ∈ s, accessOk x := fun x hx => hnn x (hperm.mem_iff.mp hx)
  have hrun := runExtract_eq raw l s hp hs hmem
  have hext := extract_eq_ok raw _ hne hrun
  rw [hext]
  refine ⟨rfl, ?_⟩
  show ((s.filter keepD).map fmtD).length = l.countP keepD
  rw [List.length_map, ← List.countP_eq_length_filter]
  exact hperm.countP_eq _

/-! ## Sort order and stability under valid timestamps -/

/-- The comparator's order on entries with valid timestamps. -/
def timeLe (a b : JsValue) : Prop := timeD a ≤ timeD b

instance : DecidableRel timeLe := fun a b => inferInstanceAs (Decidable (timeD a ≤ timeD b))

instance : IsTotal JsValue timeLe := ⟨fun _ _ => Int.le_total _ _⟩

instance : IsTrans JsValue timeLe := ⟨fun _ _ _ hab hbc => Int.le_trans hab hbc⟩

/-- A valid timestamp implies the entry supports property access. -/
theorem validTime_accessOk {e : JsValue} (h : validTime e) : accessOk e := by
  obtain ⟨t, ht⟩ := h
  cases e with
  | null => simp [entryTimeE, getProp, propOf] at ht
  | undefined => simp [entryTimeE, getProp, propOf] at ht
  | bool b => exact ⟨fun hc => JsValue.noConfusion hc, fun hc => JsValue.noConfusion hc⟩
  | num n => exact ⟨fun hc => JsValue.noConfusion hc, fun hc => JsValue.noConfusion hc⟩
  | str s => exact ⟨fun hc => JsValue.noConfusion hc, fun hc => JsValue.noConfusion hc⟩
  | arr xs => exact ⟨fun hc => JsValue.noConfusion hc, fun hc => JsValue.noConfusion hc⟩
  | obj fs => exact ⟨fun hc => JsValue.noConfusion hc, fun hc => JsValue.noConfusion hc⟩

/-- On entries with valid timestamps the comparator returns exactly the
difference of their sort keys. -/
theorem compareLogs_of_valid (a b : JsValue) (ha : validTime a) (hb : validTime b) :
    compareLogs a b = .ok (some (timeD a - timeD b)) := by
  obtain ⟨x, hx⟩ := ha
  obtain ⟨y, hy⟩ := hb
  have hta : timeD a = x := by simp [timeD, hx]
  have htb : timeD b = y := by simp [timeD, hy]
  cases hga : getProp a "timestamp" with
  | error e => simp [entryTimeE, hga] at hx
  | ok ta =>
    cases hgb : getProp b "timestamp" with
    | error e => simp [entryTimeE, hgb] at hy
    | ok tb =>
      have hdta : dateGetTime ta = some x := by
        have h := hx
        simp only [entryTimeE, hga, Except.ok.injEq] at h
        exact h
      have hdtb : dateGetTime tb = some y := by
        have h := hy
        simp only [entryTimeE, hgb, Except.ok.injEq] at h
        exact h
      simp [compareLogs, hga, hgb, hdta, hdtb, hta, htb]

/-- On entries with valid timestamps the monadic insertion coincides with
`List.orderedInsert` under `timeLe`. -/
theorem orderedInsertE_of_valid (a : JsValue) (l : List JsValue) (ha : validTime a)
    (hl : ∀ x ∈ l, validTime x) :
    orderedInsertE a l = .ok (List.orderedInsert timeLe a l) := by
  induction l with
  | nil => rfl
  | cons b bs ih =>
    have hc := compareLogs_of_valid a b ha (hl b (List.mem_cons_self b bs))
    by_cases hab : timeLe a b
    · have hab' : timeD a ≤ timeD b := hab
      have hle : jsLe (some (timeD a - timeD b)) = true := by
        simp only [jsLe, decide_eq_true_eq]
        omega
      simp [orderedInsertE, hc, hle, List.orderedInsert, if_pos hab]
    · have hab' : ¬ timeD a ≤ timeD b := hab
      have hle : jsLe (some (timeD a - timeD b)) = false := by
        simp only [jsLe, decide_eq_false_iff_not]
        omega
      simp [orderedInsertE, hc, hle, List.orderedInsert, if_neg hab,
        ih (fun x hx => hl x (List.mem_cons_of_mem b hx))]

/-- On entries with valid timestamps the JavaScript sort is exactly the
stable insertion sort under `timeLe`. -/
theorem jsSortE_of_valid (l : List JsValue) (hv : ∀ x ∈ l, validTime x) :
    jsSortE l = .ok (List.insertionSort timeLe l) := by
  induction l with
  | nil => rfl
  | cons b bs ih =>
    have hbs := ih (fun x hx => hv x (List.mem_cons_of_mem b hx))
    have hins := orderedInsertE_of_valid b (List.insertionSort timeLe bs)
      (hv b (List.mem_cons_self b bs))
      (fun x hx =>
        hv x (List.mem_cons_of_mem b ((List.mem_insertionSort timeLe).mp hx)))
    simp [jsSortE, hbs, hins, List.insertionSort]

/-- Inserting into a sorted list commutes with filtering by a predicate
that only holds on one time-class: the element lands after all equal-key
elements, so stability is visible through the filter. -/
theorem filter_orderedInsert_key (p : JsValue → Bool)
    (hp : ∀ x y, p x = true → p y = true → timeD x = timeD y)
    (a : JsValue) (l : List JsValue) :
    (List.orderedInsert timeLe a l).filter p
      = if p a then a :: l.filter p else l.filter p := by
  induction l with
  | nil =>
    show [a].filter p = _
    cases hpa : p a <;> simp [List.filter, hpa]
  | cons b bs ih =>
    show (if timeLe a b then a :: b :: bs else b :: List.orderedInsert timeLe a bs).filter p
        = _
    by_cases hab : timeLe a b
    · rw [if_pos hab, List.filter_cons]
    · rw [if_neg hab, List.filter_cons, ih]
      by_cases hpa : p a = true
      · have hpb : p b = false := by
          cases hqb : p b
          · rfl
          · exfalso
            have heq := hp a b hpa hqb
            have hab' : ¬ timeD a ≤ timeD b := hab
            omega
        simp [hpa, hpb, List.filter_cons]
      · have hpa' : p a = false := by simpa using hpa
        simp [hpa', List.filter_cons]

/-- The stable sort preserves the relative order of any one time-class:
filtering by a single-class predicate before and after sorting agree. -/
theorem filter_insertionSort_key (p : JsValue → Bool)
    (hp : ∀ x y, p x = true → p y = true → timeD x = timeD y)
    (l : List JsValue) :
    (List.insertionSort timeLe l).filter p = l.filter p := by
  induction l with
  | nil => rfl
  | cons b bs ih =>
    show (List.orderedInsert timeLe b (List.insertionSort timeLe bs)).filter p = _
    rw [filter_orderedInsert_key p hp, ih, List.filter_cons]

/-- Claim C3: on input parsing to an array all of whose entries carry
timestamps denoting valid date-time instants, `extract` succeeds, its
messages are those of the survivors of the stably sorted entry list in
order, that list is sorted ascending by timestamp instant, and entries
with identical timestamps keep their original relative input order (its
filtering by any one instant equals the input's). -/
theorem extract_sorted_stable (raw : String) (l : List JsValue)
    (hne : (jsTrim raw).isEmpty = false)
    (hp : jsonParse raw = .ok (.arr l))
    (hv : ∀ e ∈ l, validTime e) :
    (extract raw).error = none ∧
    (extract raw).orderedMessages
      = ((List.insertionSort timeLe l).filter keepD).map fmtD ∧
    ((List.insertionSort timeLe l).filter keepD).Pairwise timeLe ∧
    ∀ t : Int, ((List.insertionSort timeLe l).filter keepD).filter (fun e => timeD e == t)
      = (l.filter keepD).filter (fun e => timeD e == t) := by
  have hsort := jsSortE_of_valid l hv
  have hmem : ∀ x ∈ List.insertionSort timeLe l, accessOk x := fun x hx =>
    validTime_accessOk (hv x ((List.mem_insertionSort timeLe).mp hx))
  have hrun := runExtract_eq raw l _ hp hsort hmem
  have hext := extract_eq_ok raw _ hne hrun
  refine ⟨by rw [hext], by rw [hext], ?_, ?_⟩
  · exact (List.sorted_insertionSort timeLe l).filter keepD
  · intro t
    have hcomb : ∀ x y, ((timeD x == t) && keepD x) = true →
        ((timeD y == t) && keepD y) = true → timeD x = timeD y := by
      intro x y hx hy
      simp only [Bool.and_eq_true, beq_iff_eq] at hx hy
      rw [hx.1, hy.1]
    rw [List.filter_filter, List.filter_filter]
    exact filter_insertionSort_key _ hcomb l

set_option maxRecDepth 100000 in
/-- Witness for C3 on two out-of-order entries. -/
theorem extract_sorted_stable_witness :
    (extract "[\x7b\"timestamp\":\"2020-01-02T00:00:00Z\",\"jsonPayload\":\x7b\"message\":\"b\"\x7d\x7d,\x7b\"timestamp\":\"2020-01-01T00:00:00Z\",\"jsonPayload\":\x7b\"message\":\"a\"\x7d\x7d]").error = none ∧
    (extract "[\x7b\"timestamp\":\"2020-01-02T00:00:00Z\",\"jsonPayload\":\x7b\"message\":\"b\"\x7d\x7d,\x7b\"timestamp\":\"2020-01-01T00:00:00Z\",\"jsonPayload\":\x7b\"message\":\"a\"\x7d\x7d]").orderedMessages
      = ((List.insertionSort timeLe
          [JsValue.obj [("timestamp", .str "2020-01-02T00:00:00Z"),
            ("jsonPayload", .obj [("message", .str "b")])],
           JsValue.obj [("timestamp", .str "2020-01-01T00:00:00Z"),
            ("jsonPayload", .obj [("message", .str "a")])]]).filter keepD).map fmtD :=
  let h := extract_sorted_stable
    "[\x7b\"timestamp\":\"2020-01-02T00:00:00Z\",\"jsonPayload\":\x7b\"message\":\"b\"\x7d\x7d,\x7b\"timestamp\":\"2020-01-01T00:00:00Z\",\"jsonPayload\":\x7b\"message\":\"a\"\x7d\x7d]"
    [JsValue.obj [("timestamp", .str "2020-01-02T00:00:00Z"),
      ("jsonPayload", .obj [("message", .str "b")])],
     JsValue.obj [("timestamp", .str "2020-01-01T00:00:00Z"),
      ("jsonPayload", .obj [("message", .str "a")])]]
    (by decide) rfl
    (by
      intro e he
      cases he with
      | head => exact ⟨1577923200000, rfl⟩
      | tail _ h2 =>
        cases h2 with
        | head => exact ⟨1577836800000, rfl⟩
        | tail _ h3 => cases h3)
  ⟨h.1, h.2.1⟩

/-- Claim C10: an entry whose `jsonPayload.message` is truthy but not a
string does not fail extraction and sets no error: the entry is retained
and its message value appears in the output unchanged, because the
TypeError thrown by the substring machinery on a non-string is caught
inside `formatMessage`. -/
theorem extract_nonstring_message (raw : String) (l : List JsValue)
    (e p v : JsValue)
    (hne : (jsTrim raw).isEmpty = false)
    (hp : jsonParse raw = .ok (.arr l))
    (hnn : ∀ x ∈ l, accessOk x)
    (he : e ∈ l)
    (hp1 : propOf e "jsonPayload" = some p) (ht1 : truthy p = true)
    (hm : propOf p "message" = some v) (ht2 : truthy v = true)
    (hns : ∀ s, v ≠ JsValue.str s) :
    (extract raw).error = none ∧ v ∈ (extract raw).orderedMessages := by
  obtain ⟨s, hs, hperm⟩ := jsSortE_ok l hnn
  have hmem : ∀ x ∈ s, accessOk x := fun x hx => hnn x (hperm.mem_iff.mp hx)
  have hrun := runExtract_eq raw l s hp hs hmem
  have hext := extract_eq_ok raw _ hne hrun
  rw [hext]
  refine ⟨rfl, ?_⟩
  have hkeep : keepD e = true := by
    simp [keepD, hp1, hm, ht1, ht2]
  have hes : e ∈ s := hperm.mem_iff.mpr he
  have hef : e ∈ s.filter keepD := List.mem_filter.mpr ⟨hes, hkeep⟩
  have hfmt : fmtD e = v := by
    have hmsg : msgD e = v := by simp [msgD, hp1, hm]
    rw [fmtD, hmsg]
    cases v with
    | str s2 => exact absurd rfl (hns s2)
    | undefined => rfl
    | null => rfl
    | bool b => rfl
    | num n => rfl
    | arr xs => rfl
    | obj fs => rfl
  exact hfmt ▸ List.mem_map_of_mem fmtD hef

set_option maxRecDepth 100000 in
/-- Witness for C10 on an entry whose message is the number 42. -/
theorem extract_nonstring_message_witness :
    (extract "[\x7b\"timestamp\":\"2020-01-01T00:00:00Z\",\"jsonPayload\":\x7b\"message\":42\x7d\x7d]").error = none ∧
      JsValue.num ⟨false, ['4', '2'], 0⟩ ∈
        (extract "[\x7b\"timestamp\":\"2020-01-01T00:00:00Z\",\"jsonPayload\":\x7b\"message\":42\x7d\x7d]").orderedMessages :=
  extract_nonstring_message
    "[\x7b\"timestamp\":\"2020-01-01T00:00:00Z\",\"jsonPayload\":\x7b\"message\":42\x7d\x7d]"
    [JsValue.obj [("timestamp", .str "2020-01-01T00:00:00Z"),
      ("jsonPayload", .obj [("message", .num ⟨false, ['4', '2'], 0⟩)])]]
    (JsValue.obj [("timestamp", .str "2020-01-01T00:00:00Z"),
      ("jsonPayload", .obj [("message", .num ⟨false, ['4', '2'], 0⟩)])])
    (JsValue.obj [("message", .num ⟨false, ['4', '2'], 0⟩)])
    (JsValue.num ⟨false, ['4', '2'], 0⟩)
    (by decide) rfl
    (by
      intro x hx
      cases hx with
      | head => exact ⟨fun h => JsValue.noConfusion h, fun h => JsValue.noConfusion h⟩
      | tail _ h2 => cases h2)
    (by exact List.mem_cons_self _ _)
    rfl rfl rfl rfl
    (fun s h => JsValue.noConfusion h)

/-- Witness for C6 (amended) on the entry of spec section 8's filtering
test: one entry with an empty `jsonPayload`, dropped without error. -/
theorem extract_drops_silently_witness :
    (extract "[\x7b\"timestamp\":\"2020-01-01T00:00:00Z\",\"jsonPayload\":\x7b\x7d\x7d]").error
        = none ∧
      (extract "[\x7b\"timestamp\":\"2020-01-01T00:00:00Z\",\"jsonPayload\":\x7b\x7d\x7d]").count
        = [JsValue.obj [("timestamp", .str "2020-01-01T00:00:00Z"),
            ("jsonPayload", .obj [])]].countP keepD :=
  extract_drops_silently
    "[\x7b\"timestamp\":\"2020-01-01T00:00:00Z\",\"jsonPayload\":\x7b\x7d\x7d]"
    [JsValue.obj [("timestamp", .str "2020-01-01T00:00:00Z"),
      ("jsonPayload", .obj [])]]
    (by decide) rfl
    (by
      intro x hx
      simp only [List.mem_singleton] at hx
      subst hx
      exact ⟨fun h => JsValue.noConfusion h, fun h => JsValue.noConfusion h⟩)

